import Mathlib

set_option maxRecDepth 200000
set_option maxHeartbeats 2000000

/-
Verification of the MCQ extraction pipeline of src/app.py.

Text is modelled as List Char. The Python regular expressions of app.py are
embedded as hand-written matchers that follow the engine's backtracking
semantics for these concrete patterns:

  * greedy runs such as a whitespace run followed by a token that can never
    begin with a whitespace character need no backtracking, so they are
    implemented by maximal munch (wsCount, digitCount, nonWsCount);
  * the optional colon of the QUESTION marker is deterministic because the
    branch that skips a present colon always fails on the following digit
    requirement, so it is implemented as consume-if-present;
  * the lazy fields of QUESTION_BLOCK are implemented by trying the shortest
    capture first and extending one character at a time, where each candidate
    stop runs the full continuation of the pattern (stageD, stageC, stageB,
    stageA, lazyQ below), which is exactly the engine's backtracking order;
  * a dollar anchor without MULTILINE combined with a trailing greedy
    whitespace run matches exactly when the whole remaining suffix is
    whitespace, and the match then extends to the end of the string.

Scanning loops that jump over a successful match (finditer and re.sub) are
written with an explicit fuel argument equal to the length of the scanned
text so that every definition is structurally recursive and kernel
evaluable.  Fuel can never run out: every loop iteration consumes at least
one character of the scanned text (every pattern starts with a non-empty
literal), so the fuel branch returning the unprocessed remainder is dead.

Character classes: Python's str-mode whitespace set is modelled by pyWs
(the Unicode whitespace characters recognised by str.isspace and by the
regex class of whitespace characters).  Digits and word characters are
modelled over ASCII, which is the alphabet the documents of this
application use; Python would additionally accept non-ASCII Unicode digits
and word characters.
-/

def pyWs (c : Char) : Bool :=
  c == ' ' || c == '\t' || c == '\n' || c == '\r' || c == '\x0b' || c == '\x0c' ||
  c == '\x1c' || c == '\x1d' || c == '\x1e' || c == '\x1f' || c == '\x85' || c == '\xa0' ||
  c == ' ' || (decide (0x2000 ≤ c.toNat) && decide (c.toNat ≤ 0x200a)) ||
  c == ' ' || c == ' ' || c == ' ' || c == ' ' || c == '　'

def isWordC (c : Char) : Bool := c.isAlphanum || c == '_'

def ciEq (a b : Char) : Bool := a.toLower == b.toLower

/-- Case-insensitive literal: number of characters consumed, or none. -/
def litCI : List Char → List Char → Option Nat
  | [], _ => some 0
  | _ :: _, [] => none
  | l :: ls, c :: cs => if ciEq l c then (litCI ls cs).map (· + 1) else none

/-- Length of the maximal whitespace run at the front of the text. -/
def wsCount : List Char → Nat
  | [] => 0
  | c :: cs => if pyWs c then wsCount cs + 1 else 0

/-- Length of the maximal ASCII digit run at the front of the text. -/
def digitCount : List Char → Nat
  | [] => 0
  | c :: cs => if c.isDigit then digitCount cs + 1 else 0

/-- Length of the maximal non-whitespace run at the front of the text. -/
def nonWsCount : List Char → Nat
  | [] => 0
  | c :: cs => if pyWs c then 0 else nonWsCount cs + 1

/-- Sequencing of two matchers, adding up the consumed lengths. -/
def mseq (f g : List Char → Option Nat) (s : List Char) : Option Nat :=
  match f s with
  | none => none
  | some n =>
    match g (s.drop n) with
    | none => none
    | some m => some (n + m)

def mws (s : List Char) : Option Nat := some (wsCount s)

/-- The colon class of app.py: ASCII colon or the full-width colon. -/
def mcolon : List Char → Option Nat
  | c :: _ => if c == ':' || c == '：' then some 1 else none
  | [] => none

/-- Optional colon.  Deterministic: when a colon is present, the branch that
skips it always fails afterwards (the following tokens never accept a colon),
so consume-if-present is faithful. -/
def mcolonMaybe (s : List Char) : Option Nat :=
  match mcolon s with
  | some n => some n
  | none => some 0

def mcharCI (l : Char) : List Char → Option Nat
  | c :: _ => if ciEq l c then some 1 else none
  | [] => none

def mdigits (s : List Char) : Option Nat :=
  let n := digitCount s
  if n = 0 then none else some n

def qLitL : List Char := "QUESTION".toList
def uestionLitL : List Char := "UESTION".toList
def optLitL : List Char := "Option".toList
def correctLitL : List Char := "Correct".toList
def answerLitL : List Char := "Answer".toList
def explLitL : List Char := "Explanation/Reference".toList
def selectLitL : List Char := "Select".toList
def oneLitL : List Char := "one".toList
def httpLitL : List Char := "http".toList
def schemeSepL : List Char := "://".toList

/-- Marker of an option line: a case-insensitive `Option`, whitespace, the
given letter, whitespace, colon. -/
def optHdr (letter : Char) : List Char → Option Nat :=
  mseq (litCI optLitL) (mseq mws (mseq (mcharCI letter) (mseq mws mcolon)))

/-- Marker of the correct-answer line: `Correct`, whitespace, `Answer`,
whitespace, colon. -/
def caHdr : List Char → Option Nat :=
  mseq (litCI correctLitL) (mseq mws (mseq (litCI answerLitL) (mseq mws mcolon)))

/-- Marker of the explanation line: `Explanation/Reference`, whitespace,
colon. -/
def erHdr : List Char → Option Nat :=
  mseq (litCI explLitL) (mseq mws mcolon)

/-- Tail of the QUESTION-like stop pattern after its leading letter:
whitespace, optional colon, whitespace, at least one digit. -/
def qlikeTail (s : List Char) : Bool :=
  let s1 := s.drop (wsCount s)
  let s2 := match s1 with
    | c :: cs => if c == ':' || c == '：' then cs else s1
    | [] => s1
  let s3 := s2.drop (wsCount s2)
  match s3 with
  | c :: _ => c.isDigit
  | [] => false

/-- The stop pattern that terminates the explanation field: a `Q`, an
optional `UESTION`, then `qlikeTail`.  When `UESTION` follows the `Q` the
engine's fallback branch that skips it always fails (the next token accepts
no letter `U`), so taking it greedily is faithful. -/
def qlike : List Char → Bool
  | [] => false
  | c :: cs =>
    if ciEq 'Q' c then
      match litCI uestionLitL cs with
      | some n => qlikeTail (cs.drop n)
      | none => qlikeTail cs
    else false

/-- The lookahead ending the explanation capture: optional whitespace then a
QUESTION-like marker.  End of input is handled separately by the caller. -/
def qstop (s : List Char) : Bool := qlike (s.drop (wsCount s))

/-- Length of the lazily matched explanation capture: extend until the stop
lookahead holds or the input ends (the `\Z` alternative of the pattern). -/
def stageExpLen : List Char → Nat
  | [] => 0
  | c :: cs => if qstop (c :: cs) then 0 else stageExpLen cs + 1

/-- Character class of the answer group: `[ABCD]` under IGNORECASE. -/
def ansClass : List Char := ['A', 'B', 'C', 'D', 'a', 'b', 'c', 'd']

/-- Continuation after the correct-answer marker: whitespace, one answer
letter, whitespace, explanation marker, whitespace, explanation capture.
Returns the answer letter, the explanation capture, and the total consumed
length. -/
def ansExp (s : List Char) : Option (Char × List Char × Nat) :=
  let w1 := wsCount s
  match s.drop w1 with
  | [] => none
  | c :: cs =>
    if c ∈ ansClass then
      let w2 := wsCount cs
      match erHdr (cs.drop w2) with
      | none => none
      | some n =>
        let r := (cs.drop w2).drop n
        let w3 := wsCount r
        let e := r.drop w3
        let k := stageExpLen e
        some (c, e.take k, w1 + 1 + w2 + n + w3 + k)
    else none

/-- Correct-answer marker followed by its continuation. -/
def caThen (s : List Char) : Option (Char × List Char × Nat) :=
  match caHdr s with
  | none => none
  | some n => (ansExp (s.drop n)).map (fun (a, e, m) => (a, e, n + m))

/-- Lazy capture of option D: stop at the first position where the
correct-answer marker and the whole rest of the pattern succeed. -/
def stageD : List Char → Option (List Char × Char × List Char × Nat)
  | [] => (caThen []).map (fun (a, e, n) => ([], a, e, n))
  | c :: cs =>
    match caThen (c :: cs) with
    | some (a, e, n) => some ([], a, e, n)
    | none => (stageD cs).map (fun (d, a, e, n) => (c :: d, a, e, n + 1))

/-- Option-D marker, whitespace, then the option-D capture. -/
def dStart (s : List Char) : Option (List Char × Char × List Char × Nat) :=
  match optHdr 'D' s with
  | none => none
  | some n =>
    let w := wsCount (s.drop n)
    (stageD ((s.drop n).drop w)).map (fun (d, a, e, m) => (d, a, e, n + w + m))

/-- Lazy capture of option C, stopping where the option-D marker and the rest
of the pattern succeed. -/
def stageC : List Char → Option (List Char × List Char × Char × List Char × Nat)
  | [] => (dStart []).map (fun (d, a, e, n) => ([], d, a, e, n))
  | ch :: cs =>
    match dStart (ch :: cs) with
    | some (d, a, e, n) => some ([], d, a, e, n)
    | none => (stageC cs).map (fun (cc, d, a, e, n) => (ch :: cc, d, a, e, n + 1))

/-- Option-C marker, whitespace, then the option-C capture. -/
def cStart (s : List Char) : Option (List Char × List Char × Char × List Char × Nat) :=
  match optHdr 'C' s with
  | none => none
  | some n =>
    let w := wsCount (s.drop n)
    (stageC ((s.drop n).drop w)).map (fun (cc, d, a, e, m) => (cc, d, a, e, n + w + m))

/-- Lazy capture of option B. -/
def stageB : List Char → Option (List Char × List Char × List Char × Char × List Char × Nat)
  | [] => (cStart []).map (fun (cc, d, a, e, n) => ([], cc, d, a, e, n))
  | ch :: cs =>
    match cStart (ch :: cs) with
    | some (cc, d, a, e, n) => some ([], cc, d, a, e, n)
    | none => (stageB cs).map (fun (b, cc, d, a, e, n) => (ch :: b, cc, d, a, e, n + 1))

/-- Option-B marker, whitespace, then the option-B capture. -/
def bStart (s : List Char) : Option (List Char × List Char × List Char × Char × List Char × Nat) :=
  match optHdr 'B' s with
  | none => none
  | some n =>
    let w := wsCount (s.drop n)
    (stageB ((s.drop n).drop w)).map (fun (b, cc, d, a, e, m) => (b, cc, d, a, e, n + w + m))

/-- Lazy capture of option A. -/
def stageA : List Char → Option (List Char × List Char × List Char × List Char × Char × List Char × Nat)
  | [] => (bStart []).map (fun (b, cc, d, a, e, n) => ([], b, cc, d, a, e, n))
  | ch :: cs =>
    match bStart (ch :: cs) with
    | some (b, cc, d, a, e, n) => some ([], b, cc, d, a, e, n)
    | none => (stageA cs).map (fun (aa, b, cc, d, a, e, n) => (ch :: aa, b, cc, d, a, e, n + 1))

/-- Option-A marker, whitespace, then the option-A capture. -/
def aStart (s : List Char) : Option (List Char × List Char × List Char × List Char × Char × List Char × Nat) :=
  match optHdr 'A' s with
  | none => none
  | some n =>
    let w := wsCount (s.drop n)
    (stageA ((s.drop n).drop w)).map (fun (aa, b, cc, d, a, e, m) => (aa, b, cc, d, a, e, n + w + m))

/-- Lazy capture of the question stem, stopping where the option-A marker and
the rest of the pattern succeed. -/
def lazyQ : List Char → Option (List Char × List Char × List Char × List Char × List Char × Char × List Char × Nat)
  | [] => (aStart []).map (fun (aa, b, cc, d, a, e, n) => ([], aa, b, cc, d, a, e, n))
  | ch :: cs =>
    match aStart (ch :: cs) with
    | some (aa, b, cc, d, a, e, n) => some ([], aa, b, cc, d, a, e, n)
    | none => (lazyQ cs).map (fun (q, aa, b, cc, d, a, e, n) => (ch :: q, aa, b, cc, d, a, e, n + 1))

/-- Whitespace after the question number, then the stem capture. -/
def stageQ (s : List Char) : Option (List Char × List Char × List Char × List Char × List Char × Char × List Char × Nat) :=
  let w := wsCount s
  (lazyQ (s.drop w)).map (fun (q, aa, b, cc, d, a, e, n) => (q, aa, b, cc, d, a, e, w + n))

/-- Raw captures of one QUESTION_BLOCK match. -/
structure RawBlock where
  num : Nat
  qT : List Char
  aT : List Char
  bT : List Char
  cT : List Char
  dT : List Char
  ansC : Char
  expT : List Char
  deriving DecidableEq

def natOfDigits (l : List Char) : Nat :=
  l.foldl (fun a c => a * 10 + (c.toNat - 48)) 0

/-- One attempt of the QUESTION_BLOCK pattern at the head of the text:
`QUESTION`, whitespace, optional colon, whitespace, digits, then the stem
and field captures.  Returns the captures and the total match length. -/
def matchBlock (s : List Char) : Option (RawBlock × Nat) :=
  match litCI qLitL s with
  | none => none
  | some n0 =>
    let s1 := s.drop n0
    let w1 := wsCount s1
    let s2 := s1.drop w1
    let cl := match mcolon s2 with
      | some n => n
      | none => 0
    let s3 := s2.drop cl
    let w2 := wsCount s3
    let s4 := s3.drop w2
    let d := digitCount s4
    if d = 0 then none
    else
      match stageQ (s4.drop d) with
      | none => none
      | some (q, aa, b, cc, dd, a, e, m) =>
        some ({ num := natOfDigits (s4.take d), qT := q, aT := aa, bT := b, cT := cc,
                dT := dd, ansC := a, expT := e }, n0 + w1 + cl + w2 + d + m)

/-- The question record of app.py.  The options dictionary is modelled as an
association list; the dict comprehension of the source always produces the
four keys A, B, C, D in this order. -/
structure MCQ where
  number : Int
  question : String
  options : List (String × String)
  answer : String
  explanation : String
  deriving DecidableEq

/-- Python str.strip: drop the whitespace runs at both ends. -/
def pyStrip (l : List Char) : List Char :=
  ((l.dropWhile pyWs).reverse.dropWhile pyWs).reverse

/-- The helper of app.py that removes carriage returns and strips a field. -/
def cleanField (l : List Char) : List Char :=
  pyStrip (l.filter (fun c => c != '\r'))

/-- CLEAN_CORRECT_IN_OPTION matches at this position: optional whitespace, a
correct-answer marker, whitespace, one answer letter, and then nothing but
whitespace up to the end (the dollar anchor with the trailing greedy
whitespace run). -/
def cleanCorrectAt (s : List Char) : Bool :=
  let w := wsCount s
  match caHdr (s.drop w) with
  | none => false
  | some n =>
    let r := (s.drop w).drop n
    let w2 := wsCount r
    match r.drop w2 with
    | c :: rest => decide (c ∈ ansClass) && rest.all pyWs
    | [] => false

/-- `http://` or `https://`, case-insensitively.  Deterministic: the branch
skipping a present `s` always fails on the following `://`. -/
def httpStart (s : List Char) : Option Nat :=
  match litCI httpLitL s with
  | none => none
  | some n4 =>
    match s.drop n4 with
    | c :: cs =>
      if ciEq 's' c then (litCI schemeSepL cs).map (fun m => n4 + 1 + m)
      else (litCI schemeSepL (s.drop n4)).map (fun m => n4 + m)
    | [] => none

/-- URL_TRAILER matches at this position: a URL scheme, at least one
non-whitespace character, then nothing but whitespace up to the end. -/
def urlTrailerAt (s : List Char) : Bool :=
  match httpStart s with
  | none => false
  | some n =>
    let r := s.drop n
    let k := nonWsCount r
    decide (k ≠ 0) && (r.drop k).all pyWs

/-- re.sub of a pattern anchored to the end of the string: drop everything
from the first position where the pattern matches.  At most one match is
possible because a match extends to the end. -/
def dropTailMatch (p : List Char → Bool) : List Char → List Char
  | [] => []
  | c :: cs => if p (c :: cs) then [] else c :: dropTailMatch p cs

/-- Per-option safety cleanup of app.py: clean, strip a trailing stray
correct-answer fragment, re-strip, strip a trailing URL, re-strip. -/
def sanitizeOpt (g : List Char) : String :=
  let v1 := cleanField g
  let v2 := pyStrip (dropTailMatch cleanCorrectAt v1)
  let v3 := pyStrip (dropTailMatch urlTrailerAt v2)
  v3.asString

/-- Build the MCQ record from the raw captures, as the loop body of
parse_questions_from_text does. -/
def buildMCQ (r : RawBlock) : MCQ :=
  { number := Int.ofNat r.num
    question := (cleanField r.qT).asString
    options := [("A", sanitizeOpt r.aT), ("B", sanitizeOpt r.bT),
                ("C", sanitizeOpt r.cT), ("D", sanitizeOpt r.dT)]
    answer := ((pyStrip [r.ansC]).map Char.toUpper).asString
    explanation := (cleanField r.expT).asString }

/-- finditer over QUESTION_BLOCK: scan left to right, emit each
non-overlapping match and continue after it.  Fuel equals the length of the
scanned text; every iteration consumes at least one character (a match
consumes at least the literal `QUESTION`), so the fuel branch is dead. -/
def findAllF : Nat → List Char → List MCQ
  | 0, _ => []
  | _ + 1, [] => []
  | fuel + 1, c :: cs =>
    match matchBlock (c :: cs) with
    | some (r, n) => buildMCQ r :: findAllF fuel ((c :: cs).drop n)
    | none => findAllF fuel cs

def findAll (s : List Char) : List MCQ := findAllF s.length s

/-- The Select-one prompt pattern: `Select`, whitespace, `one`, colon,
trailing whitespace (all consumed by the match). -/
def selMatch : List Char → Option Nat :=
  mseq (litCI selectLitL)
    (mseq mws (mseq (litCI oneLitL) (mseq mws (mseq
      (fun s => match s with
        | c :: _ => if c == ':' then some 1 else none
        | [] => none) mws))))

/-- re.sub removing every Select-one prompt.  The word boundary before the
pattern requires the previous character of the original text to be a
non-word character (the next character `S` is always a word character).
After a removed match the previous character is a colon or whitespace, hence
non-word.  Fuel as in findAllF. -/
def removeSelF : Nat → Bool → List Char → List Char
  | 0, _, s => s
  | _ + 1, _, [] => []
  | fuel + 1, prevWord, c :: cs =>
    if prevWord then c :: removeSelF fuel (isWordC c) cs
    else
      match selMatch (c :: cs) with
      | some n => removeSelF fuel false ((c :: cs).drop n)
      | none => c :: removeSelF fuel (isWordC c) cs

/-- re.sub inserting a newline before every match of a marker pattern that is
not already preceded by a newline.  The scan resumes after the match; all
marker patterns end in a digit, a letter or a colon, so after a match the
previous character is never a newline.  Fuel as in findAllF. -/
def insertNlF (m : List Char → Option Nat) : Nat → Bool → List Char → List Char
  | 0, _, s => s
  | _ + 1, _, [] => []
  | fuel + 1, prevNl, c :: cs =>
    if prevNl then c :: insertNlF m fuel (c == '\n') cs
    else
      match m (c :: cs) with
      | some n => '\n' :: ((c :: cs).take n ++ insertNlF m fuel false ((c :: cs).drop n))
      | none => c :: insertNlF m fuel (c == '\n') cs

def mQnumPat : List Char → Option Nat :=
  mseq (litCI qLitL) (mseq mws (mseq mcolonMaybe (mseq mws mdigits)))

def mOptPat (letter : Char) : List Char → Option Nat := optHdr letter

def mCorrPat : List Char → Option Nat :=
  mseq caHdr (mseq mws (fun s => match s with
    | c :: _ => if c ∈ ansClass then some 1 else none
    | [] => none))

def mExplPat : List Char → Option Nat := erHdr

/-- The marker patterns of normalize_text, in the order of the source. -/
def markerPats : List (List Char → Option Nat) :=
  [mQnumPat, mOptPat 'A', mOptPat 'B', mOptPat 'C', mOptPat 'D', mCorrPat, mExplPat]

/-- Collapse runs of spaces and tabs to a single space, keeping newlines. -/
def collapseGo : Bool → List Char → List Char
  | _, [] => []
  | prevSp, c :: cs =>
    if c == ' ' || c == '\t' then
      if prevSp then collapseGo true cs else ' ' :: collapseGo true cs
    else c :: collapseGo false cs

/-- Index (within the first w characters) of the last newline, if any.  This
is the greedy backtracking of the whitespace run before the newline
lookahead: the largest amount of consumed whitespace after which a newline
follows. -/
def lastNl : List Char → Nat → Option Nat
  | _, 0 => none
  | [], _ + 1 => none
  | c :: cs, w + 1 =>
    match lastNl cs w with
    | some j => some (j + 1)
    | none => if c == '\n' then some 0 else none

/-- The own-line URL pattern of normalize_text: a newline, a URL scheme, at
least one non-whitespace character, a whitespace run, and a newline
lookahead (not consumed). -/
def nlUrlMatch (s : List Char) : Option Nat :=
  match s with
  | c :: cs =>
    if c == '\n' then
      match httpStart cs with
      | none => none
      | some n =>
        let r := cs.drop n
        let k := nonWsCount r
        if k = 0 then none
        else
          let rest := r.drop k
          let w := wsCount rest
          match lastNl rest w with
          | none => none
          | some j => some (1 + n + k + j)
    else none
  | [] => none

/-- re.sub replacing every own-line URL with a newline.  The scan resumes at
the newline of the lookahead, which may start the next match.  Fuel as in
findAllF. -/
def sub79F : Nat → List Char → List Char
  | 0, s => s
  | _ + 1, [] => []
  | fuel + 1, c :: cs =>
    match nlUrlMatch (c :: cs) with
    | some n => '\n' :: sub79F fuel ((c :: cs).drop n)
    | none => c :: sub79F fuel cs

/-- normalize_text of app.py on character lists: form feeds to newlines,
remove Select-one prompts, put every marker on its own line, collapse
space runs, remove own-line URLs, remove a trailing URL. -/
def normalizeL (t : List Char) : List Char :=
  let t1 := t.map (fun c => if c == '\x0c' then '\n' else c)
  let t2 := removeSelF t1.length false t1
  let t3 := markerPats.foldl (fun acc m => insertNlF m acc.length false acc) t2
  let t4 := collapseGo false t3
  let t5 := sub79F t4.length t4
  dropTailMatch urlTrailerAt t5

def normalize_text (txt : String) : String := (normalizeL txt.toList).asString

/-- The record order of app.py: ascending by question number. -/
def mcqLE (a b : MCQ) : Prop := a.number ≤ b.number

instance : DecidableRel mcqLE := fun a b => inferInstanceAs (Decidable (a.number ≤ b.number))

instance : IsTotal MCQ mcqLE := ⟨fun a b => Int.le_total a.number b.number⟩

instance : IsTrans MCQ mcqLE := ⟨fun _ _ _ h1 h2 => le_trans h1 h2⟩

/-- parse_questions_from_text of app.py: normalize, collect every block
match, sort ascending by number (list.sort is a stable sort; insertionSort
with this relation is the same stable sort). -/
def parse_questions_from_text (txt : String) : List MCQ :=
  let t := normalize_text txt
  List.insertionSort mcqLE (findAll t.toList)

def msgPdfMissing : String := "pdfminer.six is required. Install with: pip install pdfminer.six"
def msgDocxMissing : String := "python-docx is required. Install with: pip install python-docx"
def msgUnsupported : String := "Unsupported file type. Please upload a PDF or DOCX file."
def pdfExt : String := ".pdf"
def docxExt : String := ".docx"

/-- Python str.lower, modelled over ASCII. -/
def pyLower (s : String) : String := (s.toList.map Char.toLower).asString

/-- Python str.endswith. -/
def pyEndsWith (s suffixStr : String) : Bool :=
  let l := s.toList
  let m := suffixStr.toList
  decide (l.drop (l.length - m.length) = m)

/-- extract_text_from_pdf: the pdfminer collaborator is modelled as an
optional function from the file bytes to the extracted text; when it is not
configured the RuntimeError of the source is raised. -/
def extract_text_from_pdf (pdfX : Option (List Nat → String)) (fileBytes : List Nat) :
    Except String String :=
  match pdfX with
  | none => .error msgPdfMissing
  | some f => .ok (f fileBytes)

/-- extract_text_from_docx, with the python-docx collaborator as an optional
function. -/
def extract_text_from_docx (docxX : Option (List Nat → String)) (fileBytes : List Nat) :
    Except String String :=
  match docxX with
  | none => .error msgDocxMissing
  | some f => .ok (f fileBytes)

/-- parse_any of app.py: dispatch on the lowered filename suffix, raise the
unsupported-file RuntimeError otherwise. -/
def parse_any (pdfX docxX : Option (List Nat → String)) (fileBytes : List Nat)
    (filename : String) : Except String (List MCQ) :=
  let name := pyLower filename
  if pyEndsWith name pdfExt then
    (extract_text_from_pdf pdfX fileBytes).map parse_questions_from_text
  else if pyEndsWith name docxExt then
    (extract_text_from_docx docxX fileBytes).map parse_questions_from_text
  else .error msgUnsupported

/-- All suffixes of a character list, the list itself and the empty suffix
included. -/
def allTails : List Char → List (List Char)
  | [] => [[]]
  | c :: cs => (c :: cs) :: allTails cs

/- Concrete documents used by the claims. -/

def srcC1 : String := "QUESTION:1 What is 2+2?\nOption A: 3\nOption B: 4\nOption C: 5\nOption D: 6\nCorrect Answer: B\nExplanation/Reference: Basic arithmetic."

def recC1 : MCQ :=
  ⟨1, "What is 2+2?", [("A", "3"), ("B", "4"), ("C", "5"), ("D", "6")], "B", "Basic arithmetic."⟩

def sepC2 : String := "QUESTION:1 What is 2+2?\nOption A: 3\nOption B: 4 is the answer.\nOption C: 5\nOption D: 6\nCorrect Answer: B\nExplanation/Reference: text\nQUESTION:2 What is 3+3?\nOption A: 5\nOption B: 6\nOption C: 7\nOption D: 8\nCorrect Answer: B\nExplanation/Reference: more"

def gluedC2 : String := "QUESTION:1 What is 2+2?Option A: 3Option B: 4 is the answer.Option C: 5Option D: 6Correct Answer: BExplanation/Reference: textQUESTION:2 What is 3+3?Option A: 5Option B: 6Option C: 7Option D: 8Correct Answer: BExplanation/Reference: more"

def recC2a : MCQ :=
  ⟨1, "What is 2+2?", [("A", "3"), ("B", "4 is the answer."), ("C", "5"), ("D", "6")], "B", "text"⟩

def recC2b : MCQ :=
  ⟨2, "What is 3+3?", [("A", "5"), ("B", "6"), ("C", "7"), ("D", "8")], "B", "more"⟩

def srcC3 : String := "QUESTION:1 q\nOption A: a\nOption B: b\nOption C: c\nOption D: d\nCorrect Answer: B\nExplanation/Reference: see http://a http://b http://c"

def emptyS : String := ""

def srcC6 : String := "QUESTION:0 q\nOption A: a\nOption B: b\nOption C: c\nOption D: d\nCorrect Answer: A\nExplanation/Reference: e"

def recC6 : MCQ := ⟨0, "q", [("A", "a"), ("B", "b"), ("C", "c"), ("D", "d")], "A", "e"⟩

def srcC7 : String := "QUESTION:9 stem\nOption A: a\nOption B: b\nOption C: c\nOption D: d\nCorrect Answer: D\nExplanation/Reference: first line\nsecond line. the end"

def recC7 : MCQ :=
  ⟨9, "stem", [("A", "a"), ("B", "b"), ("C", "c"), ("D", "d")], "D", "first line\nsecond line. the end"⟩

def expTailC7 : List Char := ("first line\nsecond line. the end").toList

def srcC10 : String := "QUESTION:3\nOption A:Option B: b\nOption C: c\nOption D: d\nCorrect Answer: C\nExplanation/Reference: e"

def recC10 : MCQ := ⟨3, "", [("A", ""), ("B", "b"), ("C", "c"), ("D", "d")], "C", "e"⟩

def noMarkersS : String := "plain text, nothing that looks like a marker"

def txtNameS : String := "notes.txt"

/- Helper lemmas: every record produced by the scan comes from buildMCQ on a
successful matchBlock, and the captured answer letter is in the class. -/

theorem findAllF_forall (P : MCQ → Prop)
    (hP : ∀ s rb n, matchBlock s = some (rb, n) → P (buildMCQ rb)) :
    ∀ fuel s r, r ∈ findAllF fuel s → P r := by
  intro fuel
  induction fuel with
  | zero => intro s r h; simp [findAllF] at h
  | succ f ih =>
    intro s r h
    cases s with
    | nil => simp [findAllF] at h
    | cons c cs =>
      rw [findAllF] at h
      cases hm : matchBlock (c :: cs) with
      | none => rw [hm] at h; exact ih _ _ h
      | some p =>
        rw [hm] at h
        obtain ⟨rb, n⟩ := p
        rcases List.mem_cons.mp h with h1 | h2
        · subst h1; exact hP _ _ _ hm
        · exact ih _ _ h2

theorem parse_forall (P : MCQ → Prop)
    (hP : ∀ s rb n, matchBlock s = some (rb, n) → P (buildMCQ rb)) :
    ∀ t r, r ∈ parse_questions_from_text t → P r := by
  intro t r h
  simp only [parse_questions_from_text] at h
  have h2 : r ∈ findAll (normalize_text t).toList :=
    ((List.perm_insertionSort mcqLE _).mem_iff).mp h
  exact findAllF_forall P hP _ _ _ h2

theorem ansExp_ansClass {s : List Char} {a : Char} {e : List Char} {n : Nat}
    (h : ansExp s = some (a, e, n)) : a ∈ ansClass := by
  simp only [ansExp] at h
  split at h
  · exact absurd h (by simp)
  · split at h
    · split at h
      · exact absurd h (by simp)
      · injection h with h1
        injection h1 with h2
        subst h2
        assumption
    · exact absurd h (by simp)

theorem caThen_ansClass {s : List Char} {a : Char} {e : List Char} {n : Nat}
    (h : caThen s = some (a, e, n)) : a ∈ ansClass := by
  simp only [caThen] at h
  split at h
  · exact absurd h (by simp)
  · rw [Option.map_eq_some'] at h
    obtain ⟨⟨a', e', n'⟩, h1, h2⟩ := h
    simp at h2
    exact h2.1 ▸ ansExp_ansClass h1

theorem stageD_ansClass : ∀ {s d a e n}, stageD s = some (d, a, e, n) → a ∈ ansClass := by
  intro s
  induction s with
  | nil =>
    intro d a e n h
    simp only [stageD] at h
    rw [Option.map_eq_some'] at h
    obtain ⟨⟨a', e', n'⟩, h1, h2⟩ := h
    simp at h2
    exact h2.2.1 ▸ caThen_ansClass h1
  | cons c cs ih =>
    intro d a e n h
    simp only [stageD] at h
    cases hca : caThen (c :: cs) with
    | some p =>
      rw [hca] at h
      obtain ⟨a', e', n'⟩ := p
      simp at h
      exact h.2.1 ▸ caThen_ansClass hca
    | none =>
      rw [hca] at h
      rw [Option.map_eq_some'] at h
      obtain ⟨⟨d', a', e', n'⟩, h1, h2⟩ := h
      simp at h2
      exact h2.2.1 ▸ ih h1

theorem dStart_ansClass {s : List Char} {d : List Char} {a : Char} {e : List Char} {n : Nat}
    (h : dStart s = some (d, a, e, n)) : a ∈ ansClass := by
  simp only [dStart] at h
  split at h
  · exact absurd h (by simp)
  · rw [Option.map_eq_some'] at h
    obtain ⟨⟨d', a', e', n'⟩, h1, h2⟩ := h
    simp at h2
    exact h2.2.1 ▸ stageD_ansClass h1

theorem stageC_ansClass : ∀ {s cc d a e n}, stageC s = some (cc, d, a, e, n) → a ∈ ansClass := by
  intro s
  induction s with
  | nil =>
    intro cc d a e n h
    simp only [stageC] at h
    rw [Option.map_eq_some'] at h
    obtain ⟨⟨d', a', e', n'⟩, h1, h2⟩ := h
    simp at h2
    exact h2.2.2.1 ▸ dStart_ansClass h1
  | cons c cs ih =>
    intro cc d a e n h
    simp only [stageC] at h
    cases hd : dStart (c :: cs) with
    | some p =>
      rw [hd] at h
      obtain ⟨d', a', e', n'⟩ := p
      simp at h
      exact h.2.2.1 ▸ dStart_ansClass hd
    | none =>
      rw [hd] at h
      rw [Option.map_eq_some'] at h
      obtain ⟨⟨cc', d', a', e', n'⟩, h1, h2⟩ := h
      simp at h2
      exact h2.2.2.1 ▸ ih h1

theorem cStart_ansClass {s : List Char} {cc d : List Char} {a : Char} {e : List Char} {n : Nat}
    (h : cStart s = some (cc, d, a, e, n)) : a ∈ ansClass := by
  simp only [cStart] at h
  split at h
  · exact absurd h (by simp)
  · rw [Option.map_eq_some'] at h
    obtain ⟨⟨cc', d', a', e', n'⟩, h1, h2⟩ := h
    simp at h2
    exact h2.2.2.1 ▸ stageC_ansClass h1

theorem stageB_ansClass : ∀ {s b cc d a e n}, stageB s = some (b, cc, d, a, e, n) → a ∈ ansClass := by
  intro s
  induction s with
  | nil =>
    intro b cc d a e n h
    simp only [stageB] at h
    rw [Option.map_eq_some'] at h
    obtain ⟨⟨cc', d', a', e', n'⟩, h1, h2⟩ := h
    simp at h2
    exact h2.2.2.2.1 ▸ cStart_ansClass h1
  | cons c cs ih =>
    intro b cc d a e n h
    simp only [stageB] at h
    cases hc : cStart (c :: cs) with
    | some p =>
      rw [hc] at h
      obtain ⟨cc', d', a', e', n'⟩ := p
      simp at h
      exact h.2.2.2.1 ▸ cStart_ansClass hc
    | none =>
      rw [hc] at h
      rw [Option.map_eq_some'] at h
      obtain ⟨⟨b', cc', d', a', e', n'⟩, h1, h2⟩ := h
      simp at h2
      exact h2.2.2.2.1 ▸ ih h1

theorem bStart_ansClass {s : List Char} {b cc d : List Char} {a : Char} {e : List Char} {n : Nat}
    (h : bStart s = some (b, cc, d, a, e, n)) : a ∈ ansClass := by
  simp only [bStart] at h
  split at h
  · exact absurd h (by simp)
  · rw [Option.map_eq_some'] at h
    obtain ⟨⟨b', cc', d', a', e', n'⟩, h1, h2⟩ := h
    simp at h2
    exact h2.2.2.2.1 ▸ stageB_ansClass h1

theorem stageA_ansClass :
    ∀ {s aa b cc d a e n}, stageA s = some (aa, b, cc, d, a, e, n) → a ∈ ansClass := by
  intro s
  induction s with
  | nil =>
    intro aa b cc d a e n h
    simp only [stageA] at h
    rw [Option.map_eq_some'] at h
    obtain ⟨⟨b', cc', d', a', e', n'⟩, h1, h2⟩ := h
    simp at h2
    exact h2.2.2.2.2.1 ▸ bStart_ansClass h1
  | cons c cs ih =>
    intro aa b cc d a e n h
    simp only [stageA] at h
    cases hb : bStart (c :: cs) with
    | some p =>
      rw [hb] at h
      obtain ⟨b', cc', d', a', e', n'⟩ := p
      simp at h
      exact h.2.2.2.2.1 ▸ bStart_ansClass hb
    | none =>
      rw [hb] at h
      rw [Option.map_eq_some'] at h
      obtain ⟨⟨aa', b', cc', d', a', e', n'⟩, h1, h2⟩ := h
      simp at h2
      exact h2.2.2.2.2.1 ▸ ih h1

theorem aStart_ansClass {s : List Char} {aa b cc d : List Char} {a : Char} {e : List Char} {n : Nat}
    (h : aStart s = some (aa, b, cc, d, a, e, n)) : a ∈ ansClass := by
  simp only [aStart] at h
  split at h
  · exact absurd h (by simp)
  · rw [Option.map_eq_some'] at h
    obtain ⟨⟨aa', b', cc', d', a', e', n'⟩, h1, h2⟩ := h
    simp at h2
    exact h2.2.2.2.2.1 ▸ stageA_ansClass h1

theorem lazyQ_ansClass :
    ∀ {s q aa b cc d a e n}, lazyQ s = some (q, aa, b, cc, d, a, e, n) → a ∈ ansClass := by
  intro s
  induction s with
  | nil =>
    intro q aa b cc d a e n h
    simp only [lazyQ] at h
    rw [Option.map_eq_some'] at h
    obtain ⟨⟨aa', b', cc', d', a', e', n'⟩, h1, h2⟩ := h
    simp at h2
    exact h2.2.2.2.2.2.1 ▸ aStart_ansClass h1
  | cons c cs ih =>
    intro q aa b cc d a e n h
    simp only [lazyQ] at h
    cases ha : aStart (c :: cs) with
    | some p =>
      rw [ha] at h
      obtain ⟨aa', b', cc', d', a', e', n'⟩ := p
      simp at h
      exact h.2.2.2.2.2.1 ▸ aStart_ansClass ha
    | none =>
      rw [ha] at h
      rw [Option.map_eq_some'] at h
      obtain ⟨⟨q', aa', b', cc', d', a', e', n'⟩, h1, h2⟩ := h
      simp at h2
      exact h2.2.2.2.2.2.1 ▸ ih h1

theorem stageQ_ansClass {s : List Char} {q aa b cc d : List Char} {a : Char} {e : List Char}
    {n : Nat} (h : stageQ s = some (q, aa, b, cc, d, a, e, n)) : a ∈ ansClass := by
  simp only [stageQ] at h
  rw [Option.map_eq_some'] at h
  obtain ⟨⟨q', aa', b', cc', d', a', e', n'⟩, h1, h2⟩ := h
  simp at h2
  exact h2.2.2.2.2.2.1 ▸ lazyQ_ansClass h1

theorem matchBlock_ansClass {s : List Char} {rb : RawBlock} {n : Nat}
    (h : matchBlock s = some (rb, n)) : rb.ansC ∈ ansClass := by
  simp only [matchBlock] at h
  split at h
  · exact absurd h (by simp)
  · split at h
    · exact absurd h (by simp)
    · split at h
      · exact absurd h (by simp)
      · rename_i q aa b cc dd a e m heq
        simp at h
        obtain ⟨h1, -⟩ := h
        subst h1
        exact stageQ_ansClass heq

theorem buildMCQ_answer {rb : RawBlock} (h : rb.ansC ∈ ansClass) :
    (buildMCQ rb).answer = "A" ∨ (buildMCQ rb).answer = "B" ∨
    (buildMCQ rb).answer = "C" ∨ (buildMCQ rb).answer = "D" := by
  have h8 : rb.ansC = 'A' ∨ rb.ansC = 'B' ∨ rb.ansC = 'C' ∨ rb.ansC = 'D' ∨
      rb.ansC = 'a' ∨ rb.ansC = 'b' ∨ rb.ansC = 'c' ∨ rb.ansC = 'd' := by
    simpa [ansClass] using h
  simp only [buildMCQ]
  rcases h8 with h1 | h1 | h1 | h1 | h1 | h1 | h1 | h1 <;> rw [h1] <;> decide

/-- C1: parsing the minimal well-formed block text with the top level parse
function yields exactly one record with number 1, question, the four option
texts, answer B and the explanation. -/
theorem c1_minimal_block_roundtrip : parse_questions_from_text srcC1 = [recC1] := by decide

/-- C2: the same two-question content with every structural marker glued
directly to the preceding text parses to exactly the same records as the
newline-separated form, because normalization inserts the missing newlines
before the block scan. -/
theorem c2_glued_markers :
    parse_questions_from_text gluedC2 = parse_questions_from_text sepC2 ∧
    parse_questions_from_text sepC2 = [recC2a, recC2b] := by
  exact ⟨by decide, by decide⟩

/-- C3 counterexample: normalizing twice can change the parse output.  On a
document whose explanation ends in several space-separated URLs, each
normalization pass strips exactly one trailing URL, so the once-normalized
and the twice-normalized text parse to records with different explanations. -/
theorem c3_normalize_not_idempotent :
    parse_questions_from_text (normalize_text srcC3) ≠
    parse_questions_from_text (normalize_text (normalize_text srcC3)) := by decide

/-- C3 amended: for every text on which a second normalization pass leaves
the text unchanged, parsing the once-normalized and the twice-normalized
text give identical record sequences.  In general the equality fails (see
the counterexample). -/
theorem c3_parse_normalize_stable (t : String)
    (h : normalize_text (normalize_text t) = normalize_text t) :
    parse_questions_from_text (normalize_text t) =
    parse_questions_from_text (normalize_text (normalize_text t)) := by
  rw [h]

theorem c3_parse_normalize_stable_witness :
    normalize_text (normalize_text emptyS) = normalize_text emptyS ∧
    parse_questions_from_text (normalize_text emptyS) =
    parse_questions_from_text (normalize_text (normalize_text emptyS)) :=
  ⟨by decide, c3_parse_normalize_stable emptyS (by decide)⟩

/-- C4: for every input text the output of the top level parse function is
sorted ascending by the number field. -/
theorem c4_output_sorted_by_number (txt : String) :
    List.Sorted (fun a b : MCQ => a.number ≤ b.number) (parse_questions_from_text txt) := by
  simp only [parse_questions_from_text]
  exact List.sorted_insertionSort mcqLE _

/-- C5: for every input text, every record in the parse output has as answer
one of the four fixed labels A, B, C, D, by construction of the matching
grammar. -/
theorem c5_answer_is_fixed_label (t : String) (r : MCQ)
    (h : r ∈ parse_questions_from_text t) :
    r.answer = "A" ∨ r.answer = "B" ∨ r.answer = "C" ∨ r.answer = "D" := by
  refine parse_forall
    (fun v => v.answer = "A" ∨ v.answer = "B" ∨ v.answer = "C" ∨ v.answer = "D") ?_ t r h
  intro s rb n hm
  exact buildMCQ_answer (matchBlock_ansClass hm)

theorem c5_answer_is_fixed_label_witness :
    recC1 ∈ parse_questions_from_text srcC1 ∧
    (recC1.answer = "A" ∨ recC1.answer = "B" ∨ recC1.answer = "C" ∨ recC1.answer = "D") :=
  ⟨by decide, c5_answer_is_fixed_label srcC1 recC1 (by decide)⟩

/-- C6 counterexample: a well-formed block declared as QUESTION:0 parses to a
record whose number is 0, so the number of a record is not always strictly
positive. -/
theorem c6_number_zero_possible :
    ∃ r ∈ parse_questions_from_text srcC6, ¬ (0 < r.number) :=
  ⟨recC6, by decide, by decide⟩

/-- C6 amended: the number field of every parsed record is a non-negative
integer (the digits-only grammar admits 0, so strict positivity fails). -/
theorem c6_number_nonneg (t : String) (r : MCQ) (h : r ∈ parse_questions_from_text t) :
    0 ≤ r.number := by
  refine parse_forall (fun v => 0 ≤ v.number) ?_ t r h
  intro s rb n hm
  simp [buildMCQ]

theorem c6_number_nonneg_witness :
    recC6 ∈ parse_questions_from_text srcC6 ∧ 0 ≤ recC6.number :=
  ⟨by decide, c6_number_nonneg srcC6 recC6 (by decide)⟩

/-- C7: when no suffix of the remaining text starts (after optional
whitespace) with a QUESTION-like marker, the lazily matched explanation
capture extends to the end of the input, so the last block's explanation is
never truncated; concretely, a document whose final explanation spans two
lines up to end of input yields a record carrying the full text. -/
theorem c7_terminal_explanation (s : List Char)
    (h : ∀ u ∈ allTails s, qstop u = false) :
    stageExpLen s = s.length ∧ parse_questions_from_text srcC7 = [recC7] := by
  have key : ∀ v : List Char, (∀ u ∈ allTails v, qstop u = false) → stageExpLen v = v.length := by
    intro v
    induction v with
    | nil => intro hv; rfl
    | cons c cs ih =>
      intro hv
      have h0 : qstop (c :: cs) = false := hv (c :: cs) (by simp [allTails])
      have h1 : ∀ u ∈ allTails cs, qstop u = false := fun u hu =>
        hv u (by simp [allTails]; exact Or.inr hu)
      simp [stageExpLen, h0, ih h1]
  exact ⟨key s h, by decide⟩

theorem c7_terminal_explanation_witness :
    (∀ u ∈ allTails expTailC7, qstop u = false) ∧
    (stageExpLen expTailC7 = expTailC7.length ∧ parse_questions_from_text srcC7 = [recC7]) :=
  ⟨by decide, c7_terminal_explanation expTailC7 (by decide)⟩

theorem findAllF_nil_of_no_match :
    ∀ fuel (s : List Char), (∀ u ∈ allTails s, matchBlock u = none) → findAllF fuel s = [] := by
  intro fuel
  induction fuel with
  | zero => intro s h; simp [findAllF]
  | succ f ih =>
    intro s h
    cases s with
    | nil => simp [findAllF]
    | cons c cs =>
      have h0 : matchBlock (c :: cs) = none := h (c :: cs) (by simp [allTails])
      rw [findAllF, h0]
      exact ih cs (fun u hu => h u (by simp [allTails]; exact Or.inr hu))

/-- C8: when the normalized text contains no well-formed block at any
position (in particular when none of the markers occurs, or every block is
malformed), the top level parse function returns the empty sequence; the
parser is a total function, so no exception is possible, and no partial
record is emitted. -/
theorem c8_no_blocks_empty (t : String)
    (h : ∀ u ∈ allTails (normalize_text t).toList, matchBlock u = none) :
    parse_questions_from_text t = [] := by
  simp only [parse_questions_from_text, findAll]
  rw [findAllF_nil_of_no_match _ _ h]
  rfl

theorem c8_no_blocks_empty_witness :
    (∀ u ∈ allTails (normalize_text noMarkersS).toList, matchBlock u = none) ∧
    parse_questions_from_text noMarkersS = [] :=
  ⟨by decide, c8_no_blocks_empty noMarkersS (by decide)⟩

/-- C9: for every byte payload and every filename whose lowered name ends
neither in .pdf nor in .docx (for example a .txt name), the document-level
entry point fails with the unsupported-format error, which is a different
error value than the ones raised when the pdf or docx extraction
collaborator is not configured. -/
theorem c9_unsupported_kind (pdfX docxX : Option (List Nat → String)) (fileBytes : List Nat)
    (filename : String)
    (h1 : pyEndsWith (pyLower filename) pdfExt = false)
    (h2 : pyEndsWith (pyLower filename) docxExt = false) :
    parse_any pdfX docxX fileBytes filename = Except.error msgUnsupported ∧
    msgUnsupported ≠ msgPdfMissing ∧ msgUnsupported ≠ msgDocxMissing := by
  refine ⟨?_, by decide, by decide⟩
  simp [parse_any, h1, h2]

theorem c9_unsupported_kind_witness :
    pyEndsWith (pyLower txtNameS) pdfExt = false ∧
    pyEndsWith (pyLower txtNameS) docxExt = false ∧
    (parse_any none none [] txtNameS = Except.error msgUnsupported ∧
      msgUnsupported ≠ msgPdfMissing ∧ msgUnsupported ≠ msgDocxMissing) :=
  ⟨by decide, by decide, c9_unsupported_kind none none [] txtNameS (by decide) (by decide)⟩

/-- C10: for every input text, every record in the parse output has an
options mapping whose keys are exactly A, B, C, D in order (a block with a
missing option marker is never matched, so no record with a missing key can
arise); an individual option value can be the empty string, as the record
parsed from srcC10 shows. -/
theorem c10_options_have_all_keys (t : String) (r : MCQ)
    (h : r ∈ parse_questions_from_text t) :
    r.options.map Prod.fst = ["A", "B", "C", "D"] ∧
    ∃ v ∈ parse_questions_from_text srcC10,
      v.options = [("A", ""), ("B", "b"), ("C", "c"), ("D", "d")] := by
  constructor
  · refine parse_forall (fun v => v.options.map Prod.fst = ["A", "B", "C", "D"]) ?_ t r h
    intro s rb n hm
    simp [buildMCQ]
  · exact ⟨recC10, by decide, by decide⟩

theorem c10_options_have_all_keys_witness :
    recC10 ∈ parse_questions_from_text srcC10 ∧
    (recC10.options.map Prod.fst = ["A", "B", "C", "D"] ∧
      ∃ v ∈ parse_questions_from_text srcC10,
        v.options = [("A", ""), ("B", "b"), ("C", "c"), ("D", "d")]) :=
  ⟨by decide, c10_options_have_all_keys srcC10 recC10 (by decide)⟩
